import Mathlib

/-!
Verification of the gcp-quota-exporter collector (main.go, current version:
the one exercised by main_test.go, with the two per-source health gauges
gcp_quota_project_up and gcp_quota_regions_up).

The embedding is shallow: the upstream Google Compute API is a value of
type Service holding the outcome of the two read-only calls one scrape
performs, Go nil pointers become Option, the Prometheus channel becomes
the list of metrics sent to it, and Go runtime faults (nil dereference,
process exit) become an explicit Except layer.  Quota limit and usage
values are float64 in Go; the exporter only copies them from the API
response into metrics and never computes with them, so an opaque carrier
with decidable equality and the literals 0 and 1 suffices.
-/

namespace GcpQuota

/-- Stand-in for the Go type float64.  The exporter copies these values
verbatim and never performs arithmetic on them, so any type with
decidable equality and literals 0 and 1 is a faithful carrier. -/
abbrev Float64 := Int

/-- One entry of compute quota data, mirroring the fields of
compute.Quota that the exporter reads: Metric, Limit, Usage. -/
structure Quota where
  metric : String
  limit  : Float64
  usage  : Float64
deriving DecidableEq, Repr

/-- The part of compute.Project that the exporter reads: the Quotas list. -/
structure Project where
  quotas : List Quota
deriving DecidableEq, Repr

/-- The part of compute.Region that the exporter reads: Name and Quotas. -/
structure Region where
  name   : String
  quotas : List Quota
deriving DecidableEq, Repr

/-- The part of compute.RegionList that the exporter reads: Items. -/
structure RegionList where
  items : List Region
deriving DecidableEq, Repr

/-- The two upstream API endpoints a scrape can call:
e.service.Projects.Get(e.project).Do() and
e.service.Regions.List(e.project).Do(). -/
inductive ApiCall where
  | projectsGet
  | regionsList
deriving DecidableEq, Repr

/-- The upstream API as observed through one scrape: the outcome of each
of the two calls.  An .error value models a non-nil Go error from Do(). -/
structure Service where
  projectsGet : Except String Project
  regionsList : Except String RegionList
deriving Repr

/-- The exporter state that the scrape path reads: the resolved project
id.  The compute service handle is passed per call as a Service value,
the logger is dropped (logging is an effect the embedding does not
track), and the mutex is modelled in the action-trace semantics below. -/
structure Exporter where
  project : String
deriving DecidableEq, Repr

/-- Embedding of Exporter.scrape.  The Go function issues the two calls
unconditionally, turns an error outcome of either call into a nil
pointer for that result (after logging), and returns both pointers.
The second component records which API calls were issued, in order. -/
def Exporter.scrape (_e : Exporter) (svc : Service) :
    (Option Project × Option RegionList) × List ApiCall :=
  -- project, err := e.service.Projects.Get(e.project).Do(); if err != nil, project = nil
  let project : Option Project :=
    match svc.projectsGet with
    | .ok p => some p
    | .error _ => none
  -- regionList, err := e.service.Regions.List(e.project).Do(); if err != nil, regionList = nil
  let regionList : Option RegionList :=
    match svc.regionsList with
    | .ok r => some r
    | .error _ => none
  ((project, regionList), [ApiCall.projectsGet, ApiCall.regionsList])

/-- The four metric descriptors declared at the top of main.go. -/
inductive Desc where
  | limitDesc
  | usageDesc
  | projectQuotaUpDesc
  | regionsQuotaUpDesc
deriving DecidableEq, Repr

/-- One metric sent to the Prometheus channel by MustNewConstMetric:
its descriptor, its gauge value, and its label values in order
(project, region, metric) for the quota gauges, empty for the up
gauges. -/
structure Metric where
  desc   : Desc
  value  : Float64
  labels : List String
deriving DecidableEq, Repr

/-- Go runtime faults the embedding makes explicit: dereferencing a nil
pointer, or terminating the process. -/
inductive Fault where
  | nilDeref
  | processExit
deriving DecidableEq, Repr

/-- Reading through a Go pointer: faults with nilDeref when the pointer
is nil. -/
def deref : Option α → Except Fault α
  | some a => Except.ok a
  | none => Except.error Fault.nilDeref

/-- The (limit, usage) metric pair emitted for one quota entry:
two MustNewConstMetric calls with label values (e.project, scope,
quota.Metric). -/
def quotaPair (project scope : String) (q : Quota) : List Metric :=
  [⟨Desc.limitDesc, q.limit, [project, scope, q.metric]⟩,
   ⟨Desc.usageDesc, q.usage, [project, scope, q.metric]⟩]

/-- The metrics emitted by the project-quota loop of Collect: one
(limit, usage) pair per entry of project.Quotas, with empty region
label. -/
def accountMetrics (project : String) (p : Project) : List Metric :=
  p.quotas.flatMap (quotaPair project "")

/-- The metrics emitted by the region loop of Collect: for every region
in regionList.Items, one (limit, usage) pair per entry of its Quotas,
with the region name as region label. -/
def regionMetrics (project : String) (rl : RegionList) : List Metric :=
  rl.items.flatMap (fun region => region.quotas.flatMap (quotaPair project region.name))

/-- Embedding of Exporter.Collect.  It scrapes, then for each half:
if the pointer is non-nil it dereferences it, emits the quota metric
pairs and the matching up gauge with value 1; otherwise it emits the up
gauge with value 0.  The result is the full channel content in emission
order together with the API calls issued, or a Fault if the Go code
would have crashed. -/
def Exporter.Collect (e : Exporter) (svc : Service) :
    Except Fault (List Metric × List ApiCall) := do
  let ((project, regionList), calls) := e.scrape svc
  let projectPart ←
    if project.isSome then do
      let p ← deref project
      pure (accountMetrics e.project p ++ [⟨Desc.projectQuotaUpDesc, 1, []⟩])
    else
      pure [⟨Desc.projectQuotaUpDesc, 0, []⟩]
  let regionPart ←
    if regionList.isSome then do
      let rl ← deref regionList
      pure (regionMetrics e.project rl ++ [⟨Desc.regionsQuotaUpDesc, 1, []⟩])
    else
      pure [⟨Desc.regionsQuotaUpDesc, 0, []⟩]
  pure (projectPart ++ regionPart, calls)

/-- The project half of the channel content, as a total function of the
scrape result for that half. -/
def projectHalf (project : String) : Option Project → List Metric
  | some p => accountMetrics project p ++ [⟨Desc.projectQuotaUpDesc, 1, []⟩]
  | none => [⟨Desc.projectQuotaUpDesc, 0, []⟩]

/-- The region half of the channel content, as a total function of the
scrape result for that half. -/
def regionHalf (project : String) : Option RegionList → List Metric
  | some rl => regionMetrics project rl ++ [⟨Desc.regionsQuotaUpDesc, 1, []⟩]
  | none => [⟨Desc.regionsQuotaUpDesc, 0, []⟩]

/-- The list of metrics Collect sends to the channel (empty if Collect
faults, which collect_run_ok below shows never happens). -/
def collectEmits (e : Exporter) (svc : Service) : List Metric :=
  match e.Collect svc with
  | .ok (ms, _) => ms
  | .error _ => []

theorem collect_run_ok (e : Exporter) (svc : Service) :
    e.Collect svc =
      Except.ok
        (projectHalf e.project (e.scrape svc).1.1 ++ regionHalf e.project (e.scrape svc).1.2,
         [ApiCall.projectsGet, ApiCall.regionsList]) := by
  cases hp : svc.projectsGet <;> cases hr : svc.regionsList <;>
    simp [Exporter.Collect, Exporter.scrape, hp, hr, deref, projectHalf, regionHalf, pure, Except.pure, bind, Except.bind]

theorem collectEmits_eq (e : Exporter) (svc : Service) :
    collectEmits e svc =
      projectHalf e.project (e.scrape svc).1.1 ++ regionHalf e.project (e.scrape svc).1.2 := by
  rw [collectEmits, collect_run_ok]

/-- Quota (limit or usage) metrics, as opposed to the two up gauges. -/
def isQuotaMetric (m : Metric) : Bool :=
  match m.desc with
  | Desc.limitDesc => true
  | Desc.usageDesc => true
  | _ => false

lemma mem_quotaPair_desc {m : Metric} {pj scope : String} {q : Quota}
    (h : m ∈ quotaPair pj scope q) : isQuotaMetric m = true := by
  simp only [quotaPair, List.mem_cons, List.mem_singleton, List.not_mem_nil, or_false] at h
  rcases h with rfl | rfl <;> rfl

lemma mem_accountMetrics_quota {m : Metric} {pj : String} {p : Project}
    (h : m ∈ accountMetrics pj p) : isQuotaMetric m = true := by
  rcases List.mem_flatMap.mp h with ⟨q, _, hq⟩
  exact mem_quotaPair_desc hq

lemma mem_regionMetrics_quota {m : Metric} {pj : String} {rl : RegionList}
    (h : m ∈ regionMetrics pj rl) : isQuotaMetric m = true := by
  rcases List.mem_flatMap.mp h with ⟨r, _, hr⟩
  rcases List.mem_flatMap.mp hr with ⟨q, _, hq⟩
  exact mem_quotaPair_desc hq

/-- The health gauge value the Go code emits for one upstream call:
1 when the call returned without error, 0 otherwise. -/
def upValue : Except ε α → Float64
  | .ok _ => 1
  | .error _ => 0

/-- C2: for every upstream outcome, including both calls failing,
scrape returns normally and Collect completes without a fault (no nil
dereference or panic) and without terminating the process: the Except
layer never carries a Fault value. -/
theorem collect_total_no_fault (e : Exporter) (svc : Service) :
    ∃ ms calls, e.Collect svc = Except.ok (ms, calls) :=
  ⟨_, _, collect_run_ok e svc⟩

/-- C1: failure isolation between the two upstream calls.  When the
project call fails and the region call succeeds, the scrape result has
a nil project (so no account quota records) and the full region list,
and the emission still carries the region records; symmetrically in
the other direction; and the scrape always issues both API calls, so
one failure never prevents the other call from being made. -/
theorem failure_isolation :
    (∀ (e : Exporter) (svc : Service) (err : String) (rl : RegionList),
        svc.projectsGet = .error err → svc.regionsList = .ok rl →
        (e.scrape svc).1.1 = none ∧ (e.scrape svc).1.2 = some rl ∧
        collectEmits e svc =
          ⟨Desc.projectQuotaUpDesc, 0, []⟩ ::
            (regionMetrics e.project rl ++ [⟨Desc.regionsQuotaUpDesc, 1, []⟩])) ∧
    (∀ (e : Exporter) (svc : Service) (p : Project) (err : String),
        svc.projectsGet = .ok p → svc.regionsList = .error err →
        (e.scrape svc).1.1 = some p ∧ (e.scrape svc).1.2 = none ∧
        collectEmits e svc =
          accountMetrics e.project p ++ [⟨Desc.projectQuotaUpDesc, 1, []⟩] ++
            [⟨Desc.regionsQuotaUpDesc, 0, []⟩]) ∧
    (∀ (e : Exporter) (svc : Service),
        (e.scrape svc).2 = [ApiCall.projectsGet, ApiCall.regionsList]) := by
  refine ⟨?_, ?_, ?_⟩
  · intro e svc err rl hp hr
    refine ⟨?_, ?_, ?_⟩ <;>
      simp [collectEmits_eq, Exporter.scrape, hp, hr, projectHalf, regionHalf]
  · intro e svc p err hp hr
    refine ⟨?_, ?_, ?_⟩ <;>
      simp [collectEmits_eq, Exporter.scrape, hp, hr, projectHalf, regionHalf]
  · intro e svc
    rfl

theorem failure_isolation_witness :
    (Exporter.scrape ⟨"p"⟩ ⟨.error "boom", .ok ⟨[⟨"us-east1", [⟨"DISKS", 100, 5⟩]⟩]⟩⟩).1.1
        = none ∧
    (Exporter.scrape ⟨"p"⟩ ⟨.error "boom", .ok ⟨[⟨"us-east1", [⟨"DISKS", 100, 5⟩]⟩]⟩⟩).1.2
        = some ⟨[⟨"us-east1", [⟨"DISKS", 100, 5⟩]⟩]⟩ ∧
    collectEmits ⟨"p"⟩ ⟨.error "boom", .ok ⟨[⟨"us-east1", [⟨"DISKS", 100, 5⟩]⟩]⟩⟩ =
      ⟨Desc.projectQuotaUpDesc, 0, []⟩ ::
        (regionMetrics "p" ⟨[⟨"us-east1", [⟨"DISKS", 100, 5⟩]⟩]⟩ ++
          [⟨Desc.regionsQuotaUpDesc, 1, []⟩]) :=
  failure_isolation.1 ⟨"p"⟩ ⟨.error "boom", .ok ⟨[⟨"us-east1", [⟨"DISKS", 100, 5⟩]⟩]⟩⟩
    "boom" ⟨[⟨"us-east1", [⟨"DISKS", 100, 5⟩]⟩]⟩ rfl rfl

/-- C4: every scrape-and-emit cycle emits exactly one health record per
data source, each a 0/1 gauge, and the value of each is a function of
that source alone (the right-hand sides below mention only the matching
upstream call outcome). -/
theorem health_records_independent (e : Exporter) (svc : Service) :
    (collectEmits e svc).filter (fun m => m.desc = Desc.projectQuotaUpDesc) =
        [⟨Desc.projectQuotaUpDesc, upValue svc.projectsGet, []⟩] ∧
    (collectEmits e svc).filter (fun m => m.desc = Desc.regionsQuotaUpDesc) =
        [⟨Desc.regionsQuotaUpDesc, upValue svc.regionsList, []⟩] ∧
    (upValue svc.projectsGet = 0 ∨ upValue svc.projectsGet = 1) ∧
    (upValue svc.regionsList = 0 ∨ upValue svc.regionsList = 1) := by
  have hacc : ∀ (pj : String) (p : Project) (d : Desc), isQuotaMetric ⟨d, 1, []⟩ = false →
      (accountMetrics pj p).filter (fun m => m.desc = d) = [] := by
    intro pj p d hd
    refine List.filter_eq_nil_iff.mpr ?_
    intro m hm
    have hq := mem_accountMetrics_quota hm
    simp only [decide_eq_true_eq]
    intro hmd
    rw [isQuotaMetric] at hq hd
    rw [hmd] at hq
    simp at hq hd
    cases d <;> simp_all
  have hreg : ∀ (pj : String) (rl : RegionList) (d : Desc), isQuotaMetric ⟨d, 1, []⟩ = false →
      (regionMetrics pj rl).filter (fun m => m.desc = d) = [] := by
    intro pj rl d hd
    refine List.filter_eq_nil_iff.mpr ?_
    intro m hm
    have hq := mem_regionMetrics_quota hm
    simp only [decide_eq_true_eq]
    intro hmd
    rw [isQuotaMetric] at hq hd
    rw [hmd] at hq
    simp at hq hd
    cases d <;> simp_all
  refine ⟨?_, ?_, ?_, ?_⟩
  · cases hp : svc.projectsGet <;> cases hr : svc.regionsList <;>
      simp [collectEmits_eq, Exporter.scrape, hp, hr, projectHalf, regionHalf,
        List.filter_append, upValue,
        hacc _ _ Desc.projectQuotaUpDesc rfl, hreg _ _ Desc.projectQuotaUpDesc rfl]
  · cases hp : svc.projectsGet <;> cases hr : svc.regionsList <;>
      simp [collectEmits_eq, Exporter.scrape, hp, hr, projectHalf, regionHalf,
        List.filter_append, upValue,
        hacc _ _ Desc.regionsQuotaUpDesc rfl, hreg _ _ Desc.regionsQuotaUpDesc rfl]
  · cases hp : svc.projectsGet <;> simp [upValue]
  · cases hr : svc.regionsList <;> simp [upValue]

/-- C10: a successful upstream call with zero quota entries yields no
limit or usage records for that half, but its health gauge is still
emitted with value 1; and the emission is exactly the two halves in
order. -/
theorem empty_result_health :
    (∀ (e : Exporter) (svc : Service), svc.projectsGet = .ok ⟨[]⟩ →
        projectHalf e.project (e.scrape svc).1.1 = [⟨Desc.projectQuotaUpDesc, 1, []⟩]) ∧
    (∀ (e : Exporter) (svc : Service), svc.regionsList = .ok ⟨[]⟩ →
        regionHalf e.project (e.scrape svc).1.2 = [⟨Desc.regionsQuotaUpDesc, 1, []⟩]) ∧
    (∀ (e : Exporter) (svc : Service),
        collectEmits e svc =
          projectHalf e.project (e.scrape svc).1.1 ++
            regionHalf e.project (e.scrape svc).1.2) := by
  refine ⟨?_, ?_, ?_⟩
  · intro e svc hp
    simp [Exporter.scrape, hp, projectHalf, accountMetrics]
  · intro e svc hr
    simp [Exporter.scrape, hr, regionHalf, regionMetrics]
  · intro e svc
    exact collectEmits_eq e svc

theorem empty_result_health_witness :
    projectHalf "p" ((Exporter.scrape ⟨"p"⟩ ⟨.ok ⟨[]⟩, .ok ⟨[]⟩⟩).1.1) =
      [⟨Desc.projectQuotaUpDesc, 1, []⟩] ∧
    regionHalf "p" ((Exporter.scrape ⟨"p"⟩ ⟨.ok ⟨[]⟩, .ok ⟨[]⟩⟩).1.2) =
      [⟨Desc.regionsQuotaUpDesc, 1, []⟩] :=
  ⟨empty_result_health.1 ⟨"p"⟩ ⟨.ok ⟨[]⟩, .ok ⟨[]⟩⟩ rfl,
   empty_result_health.2.1 ⟨"p"⟩ ⟨.ok ⟨[]⟩, .ok ⟨[]⟩⟩ rfl⟩

/-- QuotaRecord from the data model of the spec: scope, metric name,
limit, usage.  This is the spec-side view used only for the refinement
statements below. -/
structure QuotaRecord where
  scope      : String
  metricName : String
  limit      : Float64
  usage      : Float64
deriving DecidableEq, Repr

/-- Modelled from the spec: the flattened upstream fixture — one record
per account quota entry with empty scope, then for every region, for
every one of its quota entries, a record scoped to that region name. -/
def flattenFixture (p : Project) (rl : RegionList) : List QuotaRecord :=
  p.quotas.map (fun q => ⟨"", q.metric, q.limit, q.usage⟩) ++
    rl.items.flatMap
      (fun region => region.quotas.map (fun q => ⟨region.name, q.metric, q.limit, q.usage⟩))

/-- The (limit-record, usage-record) metric pair for one spec-side
QuotaRecord, tagged (identity, scope, metric-name). -/
def recordPair (project : String) (r : QuotaRecord) : List Metric :=
  [⟨Desc.limitDesc, r.limit, [project, r.scope, r.metricName]⟩,
   ⟨Desc.usageDesc, r.usage, [project, r.scope, r.metricName]⟩]

lemma flattenFixture_pairs (pj : String) (p : Project) (rl : RegionList) :
    (flattenFixture p rl).flatMap (recordPair pj) =
      accountMetrics pj p ++ regionMetrics pj rl := by
  simp only [flattenFixture, accountMetrics, regionMetrics, List.flatMap_append,
    List.flatMap_assoc, List.flatMap_map, recordPair, quotaPair]
  rfl

lemma filter_quota_append (pj : String) (p : Project) (rl : RegionList) :
    List.filter isQuotaMetric
        (accountMetrics pj p ++ [⟨Desc.projectQuotaUpDesc, 1, []⟩] ++
          (regionMetrics pj rl ++ [⟨Desc.regionsQuotaUpDesc, 1, []⟩])) =
      accountMetrics pj p ++ regionMetrics pj rl := by
  have h1 : (accountMetrics pj p).filter isQuotaMetric = accountMetrics pj p :=
    List.filter_eq_self.mpr (fun m hm => mem_accountMetrics_quota hm)
  have h2 : (regionMetrics pj rl).filter isQuotaMetric = regionMetrics pj rl :=
    List.filter_eq_self.mpr (fun m hm => mem_regionMetrics_quota hm)
  simp [List.filter_append, h1, h2, isQuotaMetric]

/-- C3: for every successful dual-call scrape, the channel content is
exactly one (limit, usage) pair per upstream quota entry — account
pairs tagged (identity, "", metric) and region pairs tagged (identity,
region-name, metric) — followed by the two up gauges, and the quota
metrics coincide with the flattened upstream fixture of the spec, with
no entry dropped or duplicated. -/
theorem successful_scrape_emission (e : Exporter) (svc : Service) (p : Project)
    (rl : RegionList) (hp : svc.projectsGet = .ok p) (hr : svc.regionsList = .ok rl) :
    collectEmits e svc =
      accountMetrics e.project p ++ [⟨Desc.projectQuotaUpDesc, 1, []⟩] ++
        (regionMetrics e.project rl ++ [⟨Desc.regionsQuotaUpDesc, 1, []⟩]) ∧
    (collectEmits e svc).filter isQuotaMetric =
      (flattenFixture p rl).flatMap (recordPair e.project) := by
  have h1 : collectEmits e svc =
      accountMetrics e.project p ++ [⟨Desc.projectQuotaUpDesc, 1, []⟩] ++
        (regionMetrics e.project rl ++ [⟨Desc.regionsQuotaUpDesc, 1, []⟩]) := by
    simp [collectEmits_eq, Exporter.scrape, hp, hr, projectHalf, regionHalf]
  refine ⟨h1, ?_⟩
  rw [h1, filter_quota_append, flattenFixture_pairs]

theorem successful_scrape_emission_witness :
    collectEmits ⟨"p"⟩
        ⟨.ok ⟨[⟨"CPUS", 24, 10⟩]⟩, .ok ⟨[⟨"us-central1", [⟨"DISKS", 100, 5⟩]⟩]⟩⟩ =
      accountMetrics "p" ⟨[⟨"CPUS", 24, 10⟩]⟩ ++ [⟨Desc.projectQuotaUpDesc, 1, []⟩] ++
        (regionMetrics "p" ⟨[⟨"us-central1", [⟨"DISKS", 100, 5⟩]⟩]⟩ ++
          [⟨Desc.regionsQuotaUpDesc, 1, []⟩]) ∧
    (collectEmits ⟨"p"⟩
        ⟨.ok ⟨[⟨"CPUS", 24, 10⟩]⟩, .ok ⟨[⟨"us-central1", [⟨"DISKS", 100, 5⟩]⟩]⟩⟩).filter
        isQuotaMetric =
      (flattenFixture ⟨[⟨"CPUS", 24, 10⟩]⟩
          ⟨[⟨"us-central1", [⟨"DISKS", 100, 5⟩]⟩]⟩).flatMap (recordPair "p") :=
  successful_scrape_emission ⟨"p"⟩
    ⟨.ok ⟨[⟨"CPUS", 24, 10⟩]⟩, .ok ⟨[⟨"us-central1", [⟨"DISKS", 100, 5⟩]⟩]⟩⟩
    ⟨[⟨"CPUS", 24, 10⟩]⟩ ⟨[⟨"us-central1", [⟨"DISKS", 100, 5⟩]⟩]⟩ rfl rfl

/-- The metric-name label value of a quota metric (third label). -/
def metricLabel (m : Metric) : String := m.labels.getD 2 ""

/-- The region (scope) label value of a quota metric (second label). -/
def scopeLabel (m : Metric) : String := m.labels.getD 1 ""

lemma mem_accountMetrics_iff {m : Metric} {pj : String} {p : Project} :
    m ∈ accountMetrics pj p ↔
      ∃ q ∈ p.quotas,
        m = ⟨Desc.limitDesc, q.limit, [pj, "", q.metric]⟩ ∨
        m = ⟨Desc.usageDesc, q.usage, [pj, "", q.metric]⟩ := by
  simp [accountMetrics, List.mem_flatMap, quotaPair]

lemma mem_regionMetrics_iff {m : Metric} {pj : String} {rl : RegionList} :
    m ∈ regionMetrics pj rl ↔
      ∃ r ∈ rl.items, ∃ q ∈ r.quotas,
        m = ⟨Desc.limitDesc, q.limit, [pj, r.name, q.metric]⟩ ∨
        m = ⟨Desc.usageDesc, q.usage, [pj, r.name, q.metric]⟩ := by
  simp [regionMetrics, List.mem_flatMap, quotaPair]

lemma scopeLabel_of_accountMetrics {m : Metric} {pj : String} {p : Project}
    (h : m ∈ accountMetrics pj p) : scopeLabel m = "" := by
  rcases mem_accountMetrics_iff.mp h with ⟨q, _, rfl | rfl⟩ <;> rfl

/-- C9 counterexample: an upstream quota entry whose Metric field is
the empty string is emitted verbatim, so the emitted quota record has
an empty metric-name, refuting the unconditional record-shape claim. -/
theorem record_shape_counterexample :
    collectEmits ⟨"p"⟩ ⟨.ok ⟨[⟨"", 1, 2⟩]⟩, .ok ⟨[]⟩⟩ =
      [⟨Desc.limitDesc, 1, ["p", "", ""]⟩, ⟨Desc.usageDesc, 2, ["p", "", ""]⟩,
       ⟨Desc.projectQuotaUpDesc, 1, []⟩, ⟨Desc.regionsQuotaUpDesc, 1, []⟩] ∧
    isQuotaMetric ⟨Desc.limitDesc, 1, ["p", "", ""]⟩ = true ∧
    metricLabel ⟨Desc.limitDesc, 1, ["p", "", ""]⟩ = "" := by
  refine ⟨?_, rfl, rfl⟩
  rfl

/-- C9 amended: provided every quota entry of the upstream response has
a non-empty metric name and every region a non-empty name, every quota
metric that Collect emits carries a non-empty metric-name, and its
scope label is empty exactly when the record is account-level. -/
theorem record_shape (e : Exporter) (svc : Service)
    (hp : ∀ p, svc.projectsGet = .ok p → ∀ q ∈ p.quotas, q.metric ≠ "")
    (hr : ∀ rl, svc.regionsList = .ok rl →
        ∀ r ∈ rl.items, r.name ≠ "" ∧ ∀ q ∈ r.quotas, q.metric ≠ "") :
    ∀ m ∈ collectEmits e svc, isQuotaMetric m = true →
      metricLabel m ≠ "" ∧
      (scopeLabel m = "" ↔
        ∃ p, svc.projectsGet = .ok p ∧ m ∈ accountMetrics e.project p) := by
  intro m hm hq
  rw [collectEmits_eq] at hm
  rcases List.mem_append.mp hm with hm | hm
  · -- metric from the project half
    cases hps : svc.projectsGet with
    | error err =>
        rw [show (e.scrape svc).1.1 = none by simp [Exporter.scrape, hps]] at hm
        simp only [projectHalf, List.mem_singleton] at hm
        subst hm
        simp [isQuotaMetric] at hq
    | ok p =>
        rw [show (e.scrape svc).1.1 = some p by simp [Exporter.scrape, hps]] at hm
        simp only [projectHalf, List.mem_append, List.mem_singleton] at hm
        rcases hm with hm | hm
        · rcases mem_accountMetrics_iff.mp hm with ⟨q, hqmem, rfl | rfl⟩ <;>
            exact ⟨hp p hps q hqmem, by
              refine ⟨fun _ => ⟨p, rfl, hm⟩, fun _ => rfl⟩⟩
        · subst hm; simp [isQuotaMetric] at hq
  · -- metric from the region half
    cases hrs : svc.regionsList with
    | error err =>
        rw [show (e.scrape svc).1.2 = none by simp [Exporter.scrape, hrs]] at hm
        simp only [regionHalf, List.mem_singleton] at hm
        subst hm
        simp [isQuotaMetric] at hq
    | ok rl =>
        rw [show (e.scrape svc).1.2 = some rl by simp [Exporter.scrape, hrs]] at hm
        simp only [regionHalf, List.mem_append, List.mem_singleton] at hm
        rcases hm with hm | hm
        · rcases mem_regionMetrics_iff.mp hm with ⟨r, hrmem, q, hqmem, hcase⟩
          have hname : r.name ≠ "" := (hr rl hrs r hrmem).1
          have hmet : q.metric ≠ "" := (hr rl hrs r hrmem).2 q hqmem
          have hscope : scopeLabel m = r.name := by
            rcases hcase with rfl | rfl <;> rfl
          have hlabel : metricLabel m = q.metric := by
            rcases hcase with rfl | rfl <;> rfl
          refine ⟨by rw [hlabel]; exact hmet, ?_⟩
          constructor
          · intro hempty
            exact absurd (hscope ▸ hempty) hname
          · rintro ⟨p, hpok, hmacc⟩
            have := scopeLabel_of_accountMetrics hmacc
            rw [hscope] at this
            exact absurd this hname
        · subst hm; simp [isQuotaMetric] at hq

theorem record_shape_witness :
    metricLabel ⟨Desc.limitDesc, 24, ["p", "", "CPUS"]⟩ ≠ "" ∧
    (scopeLabel ⟨Desc.limitDesc, 24, ["p", "", "CPUS"]⟩ = "" ↔
      ∃ p, (⟨.ok ⟨[⟨"CPUS", 24, 10⟩]⟩,
              .ok ⟨[⟨"us-central1", [⟨"DISKS", 100, 5⟩]⟩]⟩⟩ : Service).projectsGet = .ok p ∧
        (⟨Desc.limitDesc, 24, ["p", "", "CPUS"]⟩ : Metric) ∈ accountMetrics "p" p) :=
  record_shape ⟨"p"⟩
    ⟨.ok ⟨[⟨"CPUS", 24, 10⟩]⟩, .ok ⟨[⟨"us-central1", [⟨"DISKS", 100, 5⟩]⟩]⟩⟩
    (by intro p h; cases h; decide)
    (by intro rl h; cases h; decide)
    ⟨Desc.limitDesc, 24, ["p", "", "CPUS"]⟩ (by decide) rfl

/-- Embedding of Exporter.Describe, which is implemented with
prometheus.DescribeByCollect: it runs a full Collect cycle into a
throwaway channel and reports the descriptor of every metric the cycle
emitted.  The ApiCall component records the upstream calls this
triggers. -/
def Exporter.Describe (e : Exporter) (svc : Service) :
    Except Fault (List Desc × List ApiCall) := do
  let (ms, calls) ← e.Collect svc
  pure (ms.map Metric.desc, calls)

/-- C8 counterexample: Describe is not static.  It issues both upstream
API calls, and its descriptor sequence differs between a failing
upstream and a succeeding one, so its result depends on the upstream
responses. -/
theorem describe_static_counterexample :
    Exporter.Describe ⟨"p"⟩ ⟨.error "boom", .error "boom"⟩ =
      Except.ok ([Desc.projectQuotaUpDesc, Desc.regionsQuotaUpDesc],
        [ApiCall.projectsGet, ApiCall.regionsList]) ∧
    Exporter.Describe ⟨"p"⟩ ⟨.ok ⟨[⟨"CPUS", 24, 10⟩]⟩, .ok ⟨[]⟩⟩ =
      Except.ok
        ([Desc.limitDesc, Desc.usageDesc, Desc.projectQuotaUpDesc, Desc.regionsQuotaUpDesc],
         [ApiCall.projectsGet, ApiCall.regionsList]) ∧
    ([Desc.projectQuotaUpDesc, Desc.regionsQuotaUpDesc] ≠
      [Desc.limitDesc, Desc.usageDesc, Desc.projectQuotaUpDesc, Desc.regionsQuotaUpDesc]) ∧
    ([ApiCall.projectsGet, ApiCall.regionsList] ≠ ([] : List ApiCall)) := by
  refine ⟨rfl, rfl, by decide, by decide⟩

/-- C8 amended: Describe delegates to a full scrape-and-emit cycle, so
it performs the two upstream API calls; the descriptors it reports are
all drawn from the fixed four-descriptor set (limit, usage, and the two
health gauges), but which ones appear depends on the scrape outcome. -/
theorem describe_by_collect (e : Exporter) (svc : Service) :
    ∃ ds, e.Describe svc = Except.ok (ds, [ApiCall.projectsGet, ApiCall.regionsList]) ∧
      ∀ d ∈ ds,
        d ∈ [Desc.limitDesc, Desc.usageDesc, Desc.projectQuotaUpDesc,
             Desc.regionsQuotaUpDesc] := by
  refine ⟨(collectEmits e svc).map Metric.desc, ?_, ?_⟩
  · rw [Exporter.Describe, collect_run_ok, collectEmits_eq]
    rfl
  · intro d _
    cases d <;> simp

/-- The three project-id sources, in the order main consults them. -/
inductive IdSource where
  | flag
  | credentialsFile
  | metadataServer
deriving DecidableEq, Repr

/-- The startup environment the project-id detection block of main
reads: the gcp.project_id flag value (or GOOGLE_PROJECT_ID), the
GOOGLE_APPLICATION_CREDENTIALS variable, the outcome of reading that
file, and the outcome of the metadata-server query. -/
structure Env where
  gcpProjectID : String
  credentialsFileEnv : String
  credentialsContents : Except String String
  metadataProjectId : Except String String

/-- Embedding of the project-id detection block of main.  The gjson
parameter abstracts the extraction
gjson.GetBytes(contents, "project_id").String().  A fatal log-and-exit
becomes an .error outcome.  The second component lists the sources
consulted, in order. -/
def detectProjectID (gjson : String → String) (env : Env) :
    Except String String × List IdSource :=
  let detected : Except String String × List IdSource :=
    if env.gcpProjectID = "" then
      if env.credentialsFileEnv ≠ "" then
        match env.credentialsContents with
        | .error err =>
            (.error ("Unable to read credentials file: " ++ err),
             [IdSource.flag, IdSource.credentialsFile])
        | .ok c =>
            if gjson c = "" then
              (.error "Could not retrieve Project ID from credentials file",
               [IdSource.flag, IdSource.credentialsFile])
            else
              (.ok (gjson c), [IdSource.flag, IdSource.credentialsFile])
      else
        match env.metadataProjectId with
        | .error err => (.error err, [IdSource.flag, IdSource.metadataServer])
        | .ok pid => (.ok pid, [IdSource.flag, IdSource.metadataServer])
    else
      (.ok env.gcpProjectID, [IdSource.flag])
  match detected with
  | (.ok pid, srcs) =>
      (if pid = "" then .error "GCP Project ID cannot be empty" else .ok pid, srcs)
  | other => other

/-- C7 counterexample: the flag is empty and the configured credentials
file yields no project_id, so every earlier source yields nothing and
the metadata server would yield a value, yet the code exits fatally
without ever consulting the metadata server — refuting "each later
source is attempted exactly when every earlier source yields
nothing". -/
theorem identity_precedence_counterexample :
    detectProjectID (fun _ => "")
        ⟨"", "credentials.json", .ok "contents-without-project-id", .ok "metadata-project"⟩ =
      (.error "Could not retrieve Project ID from credentials file",
       [IdSource.flag, IdSource.credentialsFile]) ∧
    IdSource.metadataServer ∉
      (detectProjectID (fun _ => "")
        ⟨"", "credentials.json", .ok "contents-without-project-id", .ok "metadata-project"⟩).2 := by
  exact ⟨rfl, by decide⟩

/-- C7 amended: the explicit configuration value wins when non-empty;
otherwise, when a credentials file is configured, its project_id field
is used — a file that yields nothing is a fatal startup error rather
than a fall-through; the metadata server is queried exactly when the
explicit value is empty and no credentials file is configured, and the
credentials file is consulted exactly when the explicit value is empty
and one is configured. -/
theorem identity_precedence (gjson : String → String) (env : Env) :
    (env.gcpProjectID ≠ "" →
      detectProjectID gjson env = (.ok env.gcpProjectID, [IdSource.flag])) ∧
    (env.gcpProjectID = "" → env.credentialsFileEnv ≠ "" →
      ∀ c, env.credentialsContents = .ok c → gjson c ≠ "" →
        detectProjectID gjson env =
          (.ok (gjson c), [IdSource.flag, IdSource.credentialsFile])) ∧
    (env.gcpProjectID = "" → env.credentialsFileEnv = "" →
      ∀ pid, env.metadataProjectId = .ok pid → pid ≠ "" →
        detectProjectID gjson env =
          (.ok pid, [IdSource.flag, IdSource.metadataServer])) ∧
    (IdSource.metadataServer ∈ (detectProjectID gjson env).2 ↔
      env.gcpProjectID = "" ∧ env.credentialsFileEnv = "") ∧
    (IdSource.credentialsFile ∈ (detectProjectID gjson env).2 ↔
      env.gcpProjectID = "" ∧ env.credentialsFileEnv ≠ "") := by
  refine ⟨?_, ?_, ?_, ?_, ?_⟩
  · intro h
    simp [detectProjectID, h]
  · intro h1 h2 c hc hg
    simp [detectProjectID, h1, h2, hc, hg]
  · intro h1 h2 pid hm hpid
    simp [detectProjectID, h1, h2, hm, hpid]
  · by_cases h1 : env.gcpProjectID = ""
    · by_cases h2 : env.credentialsFileEnv = ""
      · cases hm : env.metadataProjectId with
        | error err => simp [detectProjectID, h1, h2, hm]
        | ok pid =>
            by_cases hpid : pid = "" <;> simp [detectProjectID, h1, h2, hm, hpid]
      · cases hc : env.credentialsContents with
        | error err => simp [detectProjectID, h1, h2, hc]
        | ok c =>
            by_cases hg : gjson c = "" <;> simp [detectProjectID, h1, h2, hc, hg]
    · simp [detectProjectID, h1]
  · by_cases h1 : env.gcpProjectID = ""
    · by_cases h2 : env.credentialsFileEnv = ""
      · cases hm : env.metadataProjectId with
        | error err => simp [detectProjectID, h1, h2, hm]
        | ok pid =>
            by_cases hpid : pid = "" <;> simp [detectProjectID, h1, h2, hm, hpid]
      · cases hc : env.credentialsContents with
        | error err => simp [detectProjectID, h1, h2, hc]
        | ok c =>
            by_cases hg : gjson c = "" <;> simp [detectProjectID, h1, h2, hc, hg]
    · simp [detectProjectID, h1]

theorem identity_precedence_witness :
    detectProjectID (fun _ => "cred-project")
        ⟨"flag-project", "credentials.json", .ok "file-contents", .ok "metadata-project"⟩ =
      (.ok "flag-project", [IdSource.flag]) :=
  (identity_precedence (fun _ => "cred-project")
      ⟨"flag-project", "credentials.json", .ok "file-contents", .ok "metadata-project"⟩).1
    (by decide)

/-- Modelled from the spec: the retry configuration NewExporter passes
to rehttp.NewTransport — RetryAll(RetryMaxRetries(maxRetries),
RetryStatuses(retryStatuses...)).  The rehttp library itself is not
part of this repository, so its retry loop is modelled from section
4.2 of the spec. -/
structure RetryPolicy where
  maxRetries : Nat
  retryableStatuses : List Nat
deriving DecidableEq, Repr

/-- Modelled from the spec: retry exactly when the response status is
in the retryable set and the number of attempts made so far (attempt
is 0-based) is below maxRetries. -/
def shouldRetry (p : RetryPolicy) (attempt status : Nat) : Bool :=
  decide (status ∈ p.retryableStatuses) && decide (attempt < p.maxRetries)

/-- Modelled from the spec: one logical call through the retry
transport, against an upstream that answers attempt i with status
(upstream i).  Returns the final status and the total number of
attempts.  The fuel argument only bounds the recursion; started at
maxRetries it never runs out, because the retry predicate itself caps
the attempt index. -/
def transportRunAux (p : RetryPolicy) (upstream : Nat → Nat) :
    Nat → Nat → Nat × Nat
  | fuel, attempt =>
    let status := upstream attempt
    if shouldRetry p attempt status then
      match fuel with
      | 0 => (status, attempt + 1)
      | fuel' + 1 => transportRunAux p upstream fuel' (attempt + 1)
    else
      (status, attempt + 1)

/-- Modelled from the spec: a full transport call starts at attempt 0
with retry budget maxRetries. -/
def transportRun (p : RetryPolicy) (upstream : Nat → Nat) : Nat × Nat :=
  transportRunAux p upstream p.maxRetries 0

lemma transportRunAux_all_retry (p : RetryPolicy) (u : Nat → Nat)
    (hall : ∀ i, u i ∈ p.retryableStatuses) :
    ∀ fuel attempt, fuel + attempt = p.maxRetries →
      transportRunAux p u fuel attempt = (u p.maxRetries, p.maxRetries + 1) := by
  intro fuel
  induction fuel with
  | zero =>
      intro attempt h
      have ha : attempt = p.maxRetries := by omega
      subst ha
      simp [transportRunAux, shouldRetry]
  | succ fuel ih =>
      intro attempt h
      have hlt : attempt < p.maxRetries := by omega
      have hmem := hall attempt
      simp only [transportRunAux]
      rw [if_pos (by simp [shouldRetry, hmem, hlt])]
      exact ih (attempt + 1) (by omega)

lemma transportRunAux_first_success (p : RetryPolicy) (u : Nat → Nat) (k : Nat)
    (hk : k < p.maxRetries) (hfail : ∀ i, i < k → u i ∈ p.retryableStatuses)
    (hsucc : u k ∉ p.retryableStatuses) :
    ∀ fuel attempt, attempt ≤ k → fuel + attempt = p.maxRetries →
      transportRunAux p u fuel attempt = (u k, k + 1) := by
  intro fuel
  induction fuel with
  | zero =>
      intro attempt hak h
      omega
  | succ fuel ih =>
      intro attempt hak h
      rcases Nat.lt_or_ge attempt k with hlt | hge
      · have hmem := hfail attempt hlt
        have haltm : attempt < p.maxRetries := by omega
        simp only [transportRunAux]
        rw [if_pos (by simp [shouldRetry, hmem, haltm])]
        exact ih (attempt + 1) (by omega) (by omega)
      · have hak2 : attempt = k := by omega
        subst hak2
        simp only [transportRunAux]
        rw [if_neg (by simp [shouldRetry, hsucc])]

/-- C6 (modelled from the spec, the rehttp library being external):
with maxRetries = 0 the transport makes exactly one attempt; against an
upstream answering a retryable status on every attempt, the call ends
after exactly maxRetries + 1 attempts, still with a retryable status;
if only the first k < maxRetries attempts answer a retryable status and
attempt k does not, the call returns that status after exactly k + 1
attempts. -/
theorem retry_semantics :
    (∀ (p : RetryPolicy) (u : Nat → Nat), p.maxRetries = 0 →
        transportRun p u = (u 0, 1)) ∧
    (∀ (p : RetryPolicy) (u : Nat → Nat), (∀ i, u i ∈ p.retryableStatuses) →
        transportRun p u = (u p.maxRetries, p.maxRetries + 1) ∧
        (transportRun p u).1 ∈ p.retryableStatuses) ∧
    (∀ (p : RetryPolicy) (u : Nat → Nat) (k : Nat), k < p.maxRetries →
        (∀ i, i < k → u i ∈ p.retryableStatuses) → u k ∉ p.retryableStatuses →
        transportRun p u = (u k, k + 1)) := by
  refine ⟨?_, ?_, ?_⟩
  · intro p u h
    simp [transportRun, transportRunAux, shouldRetry, h]
  · intro p u hall
    have h := transportRunAux_all_retry p u hall p.maxRetries 0 (by omega)
    refine ⟨by simpa [transportRun] using h, ?_⟩
    rw [transportRun, h]
    exact hall p.maxRetries
  · intro p u k hk hfail hsucc
    simpa [transportRun] using
      transportRunAux_first_success p u k hk hfail hsucc p.maxRetries 0
        (by omega) (by omega)

theorem retry_semantics_witness :
    transportRun ⟨0, [503]⟩ (fun _ => 503) = (503, 1) ∧
    transportRun ⟨2, [503]⟩ (fun _ => 503) = (503, 3) ∧
    transportRun ⟨2, [503]⟩ (fun i => if i < 1 then 503 else 200) = (200, 2) :=
  ⟨retry_semantics.1 ⟨0, [503]⟩ (fun _ => 503) rfl,
   (retry_semantics.2.1 ⟨2, [503]⟩ (fun _ => 503) (fun i => by simp)).1,
   retry_semantics.2.2 ⟨2, [503]⟩ (fun i => if i < 1 then 503 else 200) 1 (by decide)
     (fun i hi => by simp [hi]) (by decide)⟩

/-- The atomic actions one Collect invocation performs against shared
state: acquire the mutex, send one metric to the channel, release the
mutex. -/
inductive Action where
  | lock
  | unlock
  | emit (m : Metric)
deriving DecidableEq, Repr

/-- The action trace of one Collect invocation: e.mutex.Lock() on
entry, one channel send per emitted metric, then the deferred
e.mutex.Unlock(), which Go runs on every exit path. -/
def Exporter.collectSteps (e : Exporter) (svc : Service) : List Action :=
  Action.lock :: ((collectEmits e svc).map Action.emit ++ [Action.unlock])

/-- The lock-bracketed trace of a thread that emits the metric list
ms while holding the mutex. -/
def shape (ms : List Metric) : List Action :=
  Action.lock :: (ms.map Action.emit ++ [Action.unlock])

/-- A two-thread configuration: the mutex holder, the remaining
actions of each thread, and the shared channel output so far, tagged
with the emitting thread. -/
structure Config where
  holder : Option Bool
  todo0  : List Action
  todo1  : List Action
  out    : List (Bool × Metric)
deriving DecidableEq, Repr

def todoOf : Bool → Config → List Action
  | false, c => c.todo0
  | true, c => c.todo1

def setTodo : Bool → List Action → Config → Config
  | false, t, c => { c with todo0 := t }
  | true, t, c => { c with todo1 := t }

/-- One scheduler step of thread b.  A finished thread cannot step, a
lock step requires the mutex to be free, an unlock step requires b to
hold it, and an emit step appends to the shared output. -/
def stepThread (b : Bool) (c : Config) : Option Config :=
  match todoOf b c with
  | [] => none
  | Action.lock :: rest =>
      match c.holder with
      | none => some (setTodo b rest { c with holder := some b })
      | some _ => none
  | Action.unlock :: rest =>
      if c.holder = some b then some (setTodo b rest { c with holder := none })
      else none
  | Action.emit m :: rest =>
      some (setTodo b rest { c with out := c.out ++ [(b, m)] })

/-- Running a schedule: the threads step in the scheduled order; a
schedule that steps a blocked or finished thread is invalid. -/
def run : List Bool → Config → Option Config
  | [], c => some c
  | b :: sched, c =>
      match stepThread b c with
      | some c2 => run sched c2
      | none => none

/-- The output entries contributed by thread b emitting ms. -/
def tagOut (b : Bool) (ms : List Metric) : List (Bool × Metric) :=
  ms.map (fun m => (b, m))

/-- The metric list of thread b. -/
def msOf (ms0 ms1 : List Metric) : Bool → List Metric
  | false => ms0
  | true => ms1

@[simp] lemma setTodo_holder (b : Bool) (t : List Action) (c : Config) :
    (setTodo b t c).holder = c.holder := by cases b <;> rfl

@[simp] lemma setTodo_out (b : Bool) (t : List Action) (c : Config) :
    (setTodo b t c).out = c.out := by cases b <;> rfl

@[simp] lemma todoOf_setTodo (b b' : Bool) (t : List Action) (c : Config) :
    todoOf b (setTodo b' t c) = if b = b' then t else todoOf b c := by
  cases b <;> cases b' <;> simp [todoOf, setTodo]

@[simp] lemma todoOf_withHolder (b : Bool) (h : Option Bool) (c : Config) :
    todoOf b (Config.mk h c.todo0 c.todo1 c.out) = todoOf b c := by cases b <;> rfl

@[simp] lemma todoOf_withOut (b : Bool) (o : List (Bool × Metric)) (c : Config) :
    todoOf b (Config.mk c.holder c.todo0 c.todo1 o) = todoOf b c := by cases b <;> rfl

lemma tagOut_append (b : Bool) (x y : List Metric) :
    tagOut b (x ++ y) = tagOut b x ++ tagOut b y := List.map_append ..

lemma bool_eq_not_of_ne {a b : Bool} (h : a ≠ b) : a = !b := by
  cases a <;> cases b <;> simp_all

/-- Reachability invariant for two threads whose traces are
lock-bracketed emission runs: at any point, either nobody has locked
yet, or one distinguished thread went first and is (or was) emitting
its full list while the other is still before its lock, or both have
finished in some order.  The shared output is always a concatenation
of per-thread contiguous blocks. -/
def inv (ms0 ms1 : List Metric) (c : Config) : Prop :=
  (c.holder = none ∧ c.todo0 = shape ms0 ∧ c.todo1 = shape ms1 ∧ c.out = []) ∨
  (∃ b done rest, msOf ms0 ms1 b = done ++ rest ∧ c.holder = some b ∧
     todoOf b c = rest.map Action.emit ++ [Action.unlock] ∧
     todoOf (!b) c = shape (msOf ms0 ms1 (!b)) ∧
     c.out = tagOut b done) ∨
  (∃ b, c.holder = none ∧ todoOf b c = [] ∧
     todoOf (!b) c = shape (msOf ms0 ms1 (!b)) ∧
     c.out = tagOut b (msOf ms0 ms1 b)) ∨
  (∃ b done rest, msOf ms0 ms1 (!b) = done ++ rest ∧ c.holder = some (!b) ∧
     todoOf b c = [] ∧
     todoOf (!b) c = rest.map Action.emit ++ [Action.unlock] ∧
     c.out = tagOut b (msOf ms0 ms1 b) ++ tagOut (!b) done) ∨
  (∃ b, c.holder = none ∧ todoOf b c = [] ∧ todoOf (!b) c = [] ∧
     c.out = tagOut b (msOf ms0 ms1 b) ++ tagOut (!b) (msOf ms0 ms1 (!b)))

lemma inv_step (ms0 ms1 : List Metric) (b : Bool) (c c2 : Config)
    (hinv : inv ms0 ms1 c) (hstep : stepThread b c = some c2) :
    inv ms0 ms1 c2 := by
  rcases hinv with ⟨hh, h0, h1, ho⟩ |
    ⟨bp, done, rest, hsplit, hh, hb, hnb, ho⟩ |
    ⟨bp, hh, hb, hnb, ho⟩ |
    ⟨bp, done, rest, hsplit, hh, hb, hnb, ho⟩ |
    ⟨bp, hh, hb, hnb, ho⟩
  · -- phase 1: nobody holds the lock; the stepping thread acquires it
    have htodo : todoOf b c = shape (msOf ms0 ms1 b) := by
      cases b
      · exact h0
      · exact h1
    simp only [stepThread, htodo, shape, hh, Option.some.injEq] at hstep
    subst hstep
    refine Or.inr (Or.inl ⟨b, [], msOf ms0 ms1 b, by simp, by simp, by simp, ?_, ?_⟩)
    · have hne : (!b) ≠ b := by cases b <;> simp
      rw [todoOf_setTodo, if_neg hne, todoOf_withHolder]
      cases b
      · exact h1
      · exact h0
    · simp [tagOut, ho]
  · -- phase 2: thread bp locked first and is mid-emission
    by_cases hbb : b = bp
    · subst hbb
      rcases rest with _ | ⟨r, rest⟩
      · -- remaining trace is just the unlock: release the mutex
        simp only [List.map_nil, List.nil_append] at hb
        simp only [stepThread, hb, hh, Option.some.injEq, if_pos] at hstep
        subst hstep
        have hdone : done = msOf ms0 ms1 b := by simpa using hsplit.symm
        refine Or.inr (Or.inr (Or.inl ⟨b, by simp, by simp, ?_, ?_⟩))
        · have hne : (!b) ≠ b := by cases b <;> simp
          rw [todoOf_setTodo, if_neg hne, todoOf_withHolder]
          exact hnb
        · rw [setTodo_out]
          simpa [hdone] using ho
      · -- head is an emit: extend the output block of thread b
        simp only [List.map_cons, List.cons_append] at hb
        simp only [stepThread, hb, Option.some.injEq] at hstep
        subst hstep
        refine Or.inr (Or.inl ⟨b, done ++ [r], rest, by simpa using hsplit, by simp [hh],
          by simp, ?_, ?_⟩)
        · have hne : (!b) ≠ b := by cases b <;> simp
          rw [todoOf_setTodo, if_neg hne, todoOf_withOut]
          exact hnb
        · rw [setTodo_out]
          simp only [tagOut_append, ← ho]
          rfl
    · -- stepping the other thread: it is still at its lock and blocked
      have hbn : b = !bp := bool_eq_not_of_ne hbb
      subst hbn
      rw [stepThread, hnb] at hstep
      simp only [shape, hh] at hstep
      cases hstep
  · -- phase 3: thread bp finished, the other thread not started
    by_cases hbb : b = bp
    · subst hbb
      rw [stepThread, hb] at hstep
      cases hstep
    · have hbn : b = !bp := bool_eq_not_of_ne hbb
      subst hbn
      simp only [stepThread, hnb, shape, hh, Option.some.injEq] at hstep
      subst hstep
      refine Or.inr (Or.inr (Or.inr (Or.inl ⟨bp, [], msOf ms0 ms1 (!bp), by simp, by simp,
        ?_, by simp, ?_⟩)))
      · have hne : bp ≠ !bp := by cases bp <;> simp
        rw [todoOf_setTodo, if_neg hne, todoOf_withHolder]
        exact hb
      · simp [tagOut, ho]
  · -- phase 4: second thread (!bp) is mid-emission
    by_cases hbb : b = !bp
    · subst hbb
      rcases rest with _ | ⟨r, rest⟩
      · -- release: both threads are now done
        simp only [List.map_nil, List.nil_append] at hb hnb
        simp only [stepThread, hnb, hh, Option.some.injEq, if_pos] at hstep
        subst hstep
        have hdone : done = msOf ms0 ms1 (!bp) := by simpa using hsplit.symm
        refine Or.inr (Or.inr (Or.inr (Or.inr ⟨bp, by simp, ?_, by simp, ?_⟩)))
        · have hne : bp ≠ !bp := by cases bp <;> simp
          rw [todoOf_setTodo, if_neg hne, todoOf_withHolder]
          exact hb
        · rw [setTodo_out]
          simpa [hdone] using ho
      · -- emit: extend the second block
        simp only [List.map_cons, List.cons_append] at hnb
        simp only [stepThread, hnb, Option.some.injEq] at hstep
        subst hstep
        refine Or.inr (Or.inr (Or.inr (Or.inl ⟨bp, done ++ [r], rest, by simpa using hsplit,
          by simp [hh], ?_, by simp, ?_⟩)))
        · have hne : bp ≠ !bp := by cases bp <;> simp
          rw [todoOf_setTodo, if_neg hne, todoOf_withOut]
          exact hb
        · rw [setTodo_out]
          simp only [tagOut_append, ← List.append_assoc, ← ho]
          rfl
    · -- stepping the finished first thread: impossible
      have hbn : b = !!bp := bool_eq_not_of_ne hbb
      rw [Bool.not_not] at hbn
      subst hbn
      rw [stepThread, hb] at hstep
      cases hstep
  · -- phase 5: both threads done, no step is possible
    by_cases hbb : b = bp
    · subst hbb
      rw [stepThread, hb] at hstep
      cases hstep
    · have hbn : b = !bp := bool_eq_not_of_ne hbb
      subst hbn
      rw [stepThread, hnb] at hstep
      cases hstep

lemma inv_run (ms0 ms1 : List Metric) :
    ∀ (sched : List Bool) (c c2 : Config), inv ms0 ms1 c → run sched c = some c2 →
      inv ms0 ms1 c2 := by
  intro sched
  induction sched with
  | nil =>
      intro c c2 hinv h
      simp only [run, Option.some.injEq] at h
      subst h
      exact hinv
  | cons b sched ih =>
      intro c c2 hinv h
      simp only [run] at h
      cases hs : stepThread b c with
      | none => rw [hs] at h; cases h
      | some cmid =>
          rw [hs] at h
          exact ih cmid c2 (inv_step ms0 ms1 b c cmid hinv hs) h

lemma inv_final (ms0 ms1 : List Metric) (c : Config) (hinv : inv ms0 ms1 c)
    (h0 : c.todo0 = []) (h1 : c.todo1 = []) :
    c.out = tagOut false ms0 ++ tagOut true ms1 ∨
    c.out = tagOut true ms1 ++ tagOut false ms0 := by
  have hall : ∀ b, todoOf b c = [] := by
    intro b
    cases b
    · exact h0
    · exact h1
  rcases hinv with ⟨hh, hc0, hc1, ho⟩ |
    ⟨bp, done, rest, hsplit, hh, hb, hnb, ho⟩ |
    ⟨bp, hh, hb, hnb, ho⟩ |
    ⟨bp, done, rest, hsplit, hh, hb, hnb, ho⟩ |
    ⟨bp, hh, hb, hnb, ho⟩
  · rw [h0] at hc0
    exact absurd hc0.symm (by simp [shape])
  · rw [hall bp] at hb
    exact absurd hb.symm (by simp)
  · rw [hall (!bp)] at hnb
    exact absurd hnb.symm (by simp [shape])
  · rw [hall (!bp)] at hnb
    exact absurd hnb.symm (by simp)
  · cases bp
    · left
      simpa [msOf] using ho
    · right
      simpa [msOf] using ho

/-- C5: Collect brackets the whole scrape-and-emit cycle with the
mutex — the lock is the first action, every channel send happens while
it is held, and the deferred unlock is the last action on every exit
path — and in the interleaving semantics of the two-thread mutex
model, every complete schedule of two Collect invocations produces the
output of one full cycle followed contiguously by the output of the
other: partial metric streams of concurrent Collects never
interleave. -/
theorem collect_serialized :
    (∀ (e : Exporter) (svc : Service),
        e.collectSteps svc =
          Action.lock :: ((collectEmits e svc).map Action.emit ++ [Action.unlock])) ∧
    (∀ (e0 e1 : Exporter) (svc0 svc1 : Service) (sched : List Bool) (c : Config),
        run sched ⟨none, e0.collectSteps svc0, e1.collectSteps svc1, []⟩ = some c →
        c.todo0 = [] → c.todo1 = [] →
        c.out = tagOut false (collectEmits e0 svc0) ++ tagOut true (collectEmits e1 svc1) ∨
        c.out = tagOut true (collectEmits e1 svc1) ++ tagOut false (collectEmits e0 svc0)) := by
  refine ⟨fun e svc => rfl, ?_⟩
  intro e0 e1 svc0 svc1 sched c hrun h0 h1
  have hinit : inv (collectEmits e0 svc0) (collectEmits e1 svc1)
      ⟨none, e0.collectSteps svc0, e1.collectSteps svc1, []⟩ :=
    Or.inl ⟨rfl, rfl, rfl, rfl⟩
  exact inv_final _ _ c (inv_run _ _ sched _ c hinit hrun) h0 h1

theorem collect_serialized_witness :
    (Config.mk none [] []
        (tagOut false (collectEmits ⟨"p"⟩ ⟨.ok ⟨[⟨"CPUS", 24, 10⟩]⟩, .ok ⟨[]⟩⟩) ++
         tagOut true (collectEmits ⟨"q"⟩ ⟨.error "x", .error "y"⟩))).out =
      tagOut false (collectEmits ⟨"p"⟩ ⟨.ok ⟨[⟨"CPUS", 24, 10⟩]⟩, .ok ⟨[]⟩⟩) ++
        tagOut true (collectEmits ⟨"q"⟩ ⟨.error "x", .error "y"⟩) ∨
    (Config.mk none [] []
        (tagOut false (collectEmits ⟨"p"⟩ ⟨.ok ⟨[⟨"CPUS", 24, 10⟩]⟩, .ok ⟨[]⟩⟩) ++
         tagOut true (collectEmits ⟨"q"⟩ ⟨.error "x", .error "y"⟩))).out =
      tagOut true (collectEmits ⟨"q"⟩ ⟨.error "x", .error "y"⟩) ++
        tagOut false (collectEmits ⟨"p"⟩ ⟨.ok ⟨[⟨"CPUS", 24, 10⟩]⟩, .ok ⟨[]⟩⟩) :=
  collect_serialized.2 ⟨"p"⟩ ⟨"q"⟩ ⟨.ok ⟨[⟨"CPUS", 24, 10⟩]⟩, .ok ⟨[]⟩⟩
    ⟨.error "x", .error "y"⟩
    [false, false, false, false, false, false, true, true, true, true]
    (Config.mk none [] []
      (tagOut false (collectEmits ⟨"p"⟩ ⟨.ok ⟨[⟨"CPUS", 24, 10⟩]⟩, .ok ⟨[]⟩⟩) ++
       tagOut true (collectEmits ⟨"q"⟩ ⟨.error "x", .error "y"⟩)))
    (by decide) rfl rfl

end GcpQuota
